import Mathlib

/-!
Shallow embedding of the TenSore tensor library (src/include/Tensor.hpp).

A `Tensor<T, Rank, A>` is modelled as a record holding the dimension
vector, the flat backing storage, the cached size and the version
counter.  `std::size_t` arithmetic is modelled as `Nat` reduced modulo
`2 ^ 64` wherever the source performs arithmetic that can wrap.  Fallible
accessors (`operator[]`, `at`, iterator dereference) return `Except`.
The rank of the C++ template is the length of the dimension list; both
coordinate arrays of the source have exactly `Rank` entries, which the
theorems record as a length hypothesis.  The `std::shared_mutex` field
only guards concurrent access and carries no sequential meaning, so it
is not part of the state.
-/

namespace TenSore

/-- Modulus of `std::size_t` arithmetic (64-bit machine words). -/
def U64 : Nat := 2 ^ 64

/-- Error kinds thrown by the source (`std::out_of_range` for flat or
coordinate accesses, the two `std::runtime_error` cases of iterators). -/
inductive TensorError where
  | indexOutOfBounds
  | iteratorInvalidated
  | useAfterFree
deriving DecidableEq, Repr

instance {ε α : Type} [DecidableEq ε] [DecidableEq α] : DecidableEq (Except ε α) :=
  fun a b =>
    match a, b with
    | .ok x, .ok y =>
      if h : x = y then isTrue (by rw [h]) else isFalse (fun hc => h (Except.ok.inj hc))
    | .error x, .error y =>
      if h : x = y then isTrue (by rw [h]) else isFalse (fun hc => h (Except.error.inj hc))
    | .ok _, .error _ => isFalse (fun hc => Except.noConfusion hc)
    | .error _, .ok _ => isFalse (fun hc => Except.noConfusion hc)

/-- State of `Tensor<T, Rank, A>`: `m_DimensionsData`, `m_Data`,
`m_Size` (cached, member-initialised to 0) and `m_Version`
(member-initialised to 0).  The mutex member is omitted. -/
structure Tensor (α : Type) where
  m_DimensionsData : List Nat
  m_Data : List α
  m_Size : Nat
  m_Version : Nat

/-- `size()`: returns the cached `m_Size`. -/
def Tensor.size (t : Tensor α) : Nat := t.m_Size

/-- `dimensions()`: returns `m_DimensionsData`. -/
def Tensor.dimensions (t : Tensor α) : List Nat := t.m_DimensionsData

/-- The product loop of `fsize`: `_retval = 1; for it in dims: _retval *= it`,
each multiplication performed in `std::size_t`. -/
def prodDims (ds : List Nat) : Nat := ds.foldl (fun acc d => acc * d % U64) 1

/-- `invalidate_iterators()`: `m_Version++` (in `std::size_t`). -/
def invalidate_iterators (t : Tensor α) : Tensor α :=
  { t with m_Version := (t.m_Version + 1) % U64 }

/-- `fsize()`: recompute the product of the dimensions; if it differs
from the cached `m_Size`, call `invalidate_iterators()`; store it. -/
def fsize (t : Tensor α) : Tensor α :=
  let r := prodDims t.m_DimensionsData
  let t1 := if t.m_Size ≠ r then invalidate_iterators t else t
  { t1 with m_Size := r }

/-- The `Tensor(std::array<size_t, Rank>&&)` constructor: store the
dimensions, call `fsize()`, then `m_Data.resize(m_Size)` (new slots are
value-initialised, modelled by `default`). -/
def mkTensor [Inhabited α] (ds : List Nat) : Tensor α :=
  let t1 : Tensor α :=
    fsize { m_DimensionsData := ds, m_Data := [], m_Size := 0, m_Version := 0 }
  { t1 with m_Data := List.replicate t1.m_Size default }

/-- The copy constructor: assigns `m_DimensionsData` and `m_Data` from the
source; `m_Size` and `m_Version` keep their member initialisers (0). -/
def copyCtor (other : Tensor α) : Tensor α :=
  { m_DimensionsData := other.m_DimensionsData, m_Data := other.m_Data,
    m_Size := 0, m_Version := 0 }

/-- The copy assignment operator: assigns `m_DimensionsData` and `m_Data`
from the source; the destination keeps its own `m_Size` and `m_Version`. -/
def copyAssign (t other : Tensor α) : Tensor α :=
  { t with m_DimensionsData := other.m_DimensionsData, m_Data := other.m_Data }

/-- The move assignment operator: same effect on the destination state as
copy assignment (the members are moved over, `m_Size` and `m_Version`
untouched). -/
def moveAssign (t other : Tensor α) : Tensor α :=
  { t with m_DimensionsData := other.m_DimensionsData, m_Data := other.m_Data }

/-- `operator[](N)` (read): `if (N > size()) throw std::out_of_range`,
else return `m_Data[N]` (the raw vector access is modelled with a
default fallback because the source performs no second check). -/
def getFlat [Inhabited α] (t : Tensor α) (n : Nat) : Except TensorError α :=
  if t.m_Size < n then .error .indexOutOfBounds
  else .ok (t.m_Data.getD n default)

/-- `operator[](N)` used as an lvalue (write through the returned
reference): same bound check, then the slot is overwritten. -/
def setFlat (t : Tensor α) (n : Nat) (v : α) : Except TensorError (Tensor α) :=
  if t.m_Size < n then .error .indexOutOfBounds
  else .ok { t with m_Data := t.m_Data.set n v }

/-- Loop body of `calculateIndex`: for each `i`, if
`dims[i] >= m_DimensionsData[i]` throw, else
`index += dims[i] * multiplier; multiplier *= m_DimensionsData[i]`,
both in `std::size_t`.  First argument is the coordinate list, second
the dimension list (always the same length, `Rank`, in the source). -/
def calcIndexAux : List Nat → List Nat → Nat → Nat → Except TensorError Nat
  | c :: cs, d :: ds, mult, acc =>
    if d ≤ c then .error .indexOutOfBounds
    else calcIndexAux cs ds (mult * d % U64) ((acc + c * mult) % U64)
  | _, _, _, acc => .ok acc

/-- `calculateIndex(dims)`: run the loop with `index = 0`, `multiplier = 1`. -/
def calculateIndex (dims coords : List Nat) : Except TensorError Nat :=
  calcIndexAux coords dims 1 0

/-- `at(dims)`: compute the flat index with `calculateIndex`, then return
`m_Data[index]` (raw vector access, modelled with a default fallback). -/
def tensorAt [Inhabited α] (t : Tensor α) (coords : List Nat) : Except TensorError α :=
  match calculateIndex t.m_DimensionsData coords with
  | .error e => .error e
  | .ok idx => .ok (t.m_Data.getD idx default)

/-- State of `Tensor::Iterator`: the tensor pointer is modelled by a
numeric identity, plus the flat index and the captured version. -/
structure Iterator where
  m_TensorId : Nat
  m_Index : Nat
  m_Version : Nat
deriving DecidableEq, Repr

/-- State of `Tensor::ConstIterator`: same members as `Iterator`. -/
structure CIterator where
  m_TensorId : Nat
  m_Index : Nat
  m_Version : Nat
deriving DecidableEq, Repr

/-- `begin()`: `Iterator(this, 0, m_Version)`. -/
def Tensor.begin (tid : Nat) (t : Tensor α) : Iterator :=
  { m_TensorId := tid, m_Index := 0, m_Version := t.m_Version }

/-- `cbegin()`: `ConstIterator(this, 0, m_Version)`. -/
def Tensor.cbegin (tid : Nat) (t : Tensor α) : CIterator :=
  { m_TensorId := tid, m_Index := 0, m_Version := t.m_Version }

/-- `Iterator::operator*` (non-const): `test_for_invalidation()` (throws
when the captured version differs from the tensor's `m_Version`), then
`(*m_TensorPtr)[m_Index]`.  The dereferenced tensor is passed
explicitly; the null-pointer branch cannot fire for a live tensor. -/
def iterStar [Inhabited α] (t : Tensor α) (it : Iterator) : Except TensorError α :=
  if t.m_Version ≠ it.m_Version then .error .iteratorInvalidated
  else getFlat t it.m_Index

/-- `Iterator::operator*` (const overload): no `test_for_invalidation`
call; goes straight to `(*m_TensorPtr)[m_Index]`. -/
def iterStarConst [Inhabited α] (t : Tensor α) (it : Iterator) : Except TensorError α :=
  getFlat t it.m_Index

/-- `ConstIterator::operator*`: no `test_for_invalidation` call; goes
straight to `m_TensorPtr->operator[](m_Index)`. -/
def cIterStar [Inhabited α] (t : Tensor α) (it : CIterator) : Except TensorError α :=
  getFlat t it.m_Index

/-- `ConstIterator::operator->`: `test_for_invalidation()` then the
element access of `operator*`. -/
def cIterArrow [Inhabited α] (t : Tensor α) (it : CIterator) : Except TensorError α :=
  if t.m_Version ≠ it.m_Version then .error .iteratorInvalidated
  else getFlat t it.m_Index

/-- `Iterator::operator==`: compares only `m_Index`. -/
def iterEqb (a b : Iterator) : Bool := a.m_Index == b.m_Index

/-- `ConstIterator::operator==`: compares only `m_Index`. -/
def cIterEqb (a b : CIterator) : Bool := a.m_Index == b.m_Index

/-- `Iterator::operator<=>` is `= default`: lexicographic comparison of
the members in declaration order `m_TensorPtr`, `m_Index`, `m_Version`;
this is `<` derived from it. -/
def iterLt (a b : Iterator) : Bool :=
  if a.m_TensorId ≠ b.m_TensorId then decide (a.m_TensorId < b.m_TensorId)
  else if a.m_Index ≠ b.m_Index then decide (a.m_Index < b.m_Index)
  else decide (a.m_Version < b.m_Version)

/-- Unsigned 64-bit subtraction: `a - b` on `std::size_t` values. -/
def wrapSub (a b : Nat) : Nat := (a % U64 + (U64 - b % U64)) % U64

/-- Conversion of a `std::size_t` bit pattern to `std::ptrdiff_t`
(twos-complement read of the low 64 bits). -/
def toInt64 (x : Nat) : Int := if x < 2 ^ 63 then (x : Int) else (x : Int) - (U64 : Int)

/-- `Iterator::operator-(const Iterator&)`:
`return m_Index - other.m_Index;` — computed in `std::size_t` and then
converted to the signed `difference_type`. -/
def iterSub (a b : Iterator) : Int := toInt64 (wrapSub a.m_Index b.m_Index)

/-- Stride of dimension `i` following the spec: the product of all
dimensions with index `< i` (`stride 0 = 1`). -/
def stride (d : List Nat) (i : Nat) : Nat := (d.take i).prod

/-- The offset formula as the spec words it: the sum over `i` of
`c[i] * stride i`.  This is the spec-side definition compared against
`calculateIndex`. -/
def offsetSpec (c d : List Nat) : Nat :=
  ((List.range c.length).map (fun i => c.getD i 0 * stride d i)).sum

/-- Horner form of the offset formula, used as the induction bridge
between `calcIndexAux` and `offsetSpec`. -/
def offsetH : List Nat → List Nat → Nat
  | c :: cs, d :: ds => c + d * offsetH cs ds
  | _, _ => 0

/-- Buffer-identity view of a tensor, used to express aliasing: the
flat storage lives in a heap of buffers and the tensor holds the id of
the buffer it owns. -/
structure HTensor where
  dims : List Nat
  bufId : Nat
  m_Size : Nat
  m_Version : Nat

/-- The copy constructor in the buffer-identity view: `m_Data = other.m_Data`
on `std::vector` allocates a fresh buffer and copies the elements into it;
`m_Size`/`m_Version` keep their member initialisers. -/
def heapCopyCtor (h : List (List Nat)) (a : HTensor) : List (List Nat) × HTensor :=
  (h ++ [h.getD a.bufId []],
   { dims := a.dims, bufId := h.length, m_Size := 0, m_Version := 0 })

/-- Writing through `operator[]` in the buffer-identity view: the bound
check of the source, then the tensor's own buffer is updated in place. -/
def heapSetFlat (h : List (List Nat)) (t : HTensor) (n : Nat) (v : Nat) :
    Except TensorError (List (List Nat)) :=
  if t.m_Size < n then .error .indexOutOfBounds
  else .ok (h.set t.bufId ((h.getD t.bufId []).set n v))

/-! Helper lemmas about the modular arithmetic of the embedding. -/

lemma u64_pos : 0 < U64 := by norm_num [U64]

lemma mod_add_mul_mod (a b k m : Nat) : (a % m + b % m * k) % m = (a + b * k) % m :=
  Nat.ModEq.add (Nat.mod_modEq a m) ((Nat.mod_modEq b m).mul_right k)

lemma foldlMod_zero : ∀ ds : List Nat, List.foldl (fun a d => a * d % U64) 0 ds = 0
  | [] => rfl
  | d :: ds => by
    simp only [List.foldl_cons, Nat.zero_mul, Nat.zero_mod]
    exact foldlMod_zero ds

lemma foldlMod_prod_zero : ∀ (ds : List Nat) (acc : Nat), ds.prod = 0 →
    List.foldl (fun a d => a * d % U64) acc ds = 0
  | [], _, h => by simp at h
  | d :: ds, acc, h => by
    rw [List.prod_cons] at h
    rcases Nat.mul_eq_zero.mp h with hd | hds
    · subst hd
      simp only [List.foldl_cons, Nat.mul_zero, Nat.zero_mod]
      exact foldlMod_zero ds
    · simp only [List.foldl_cons]
      exact foldlMod_prod_zero ds _ hds

lemma foldlMod_eq : ∀ (ds : List Nat) (acc : Nat), acc < U64 → acc * ds.prod < U64 →
    List.foldl (fun a d => a * d % U64) acc ds = acc * ds.prod
  | [], acc, _, _ => by simp
  | d :: ds, acc, hacc, hof => by
    rw [List.prod_cons] at hof
    by_cases hz : ds.prod = 0
    · rw [List.foldl_cons, foldlMod_prod_zero ds _ hz, List.prod_cons, hz]
      ring
    · have hd : acc * d < U64 := by
        calc acc * d ≤ acc * d * ds.prod :=
              Nat.le_mul_of_pos_right _ (Nat.pos_of_ne_zero hz)
          _ = acc * (d * ds.prod) := by ring
          _ < U64 := hof
      rw [List.foldl_cons, Nat.mod_eq_of_lt hd,
        foldlMod_eq ds (acc * d) hd (by rw [mul_assoc]; exact hof), List.prod_cons]
      ring

lemma prodDims_eq (ds : List Nat) (hof : ds.prod < U64) : prodDims ds = ds.prod := by
  unfold prodDims
  have h := foldlMod_eq ds 1 (by norm_num [U64]) (by simpa using hof)
  simpa using h

/-! Helper lemmas relating the spec offset formula to its Horner form and
to the index-computation loop. -/

lemma offsetSpec_nil (d : List Nat) : offsetSpec [] d = 0 := by
  simp [offsetSpec]

lemma offsetSpec_cons (x y : Nat) (cs ds : List Nat) :
    offsetSpec (x :: cs) (y :: ds) = x + y * offsetSpec cs ds := by
  unfold offsetSpec
  rw [List.length_cons, List.range_succ_eq_map, List.map_cons, List.sum_cons, List.map_map]
  have hfun : ((fun i => (x :: cs).getD i 0 * stride (y :: ds) i) ∘ Nat.succ)
      = fun i => y * (cs.getD i 0 * stride ds i) := by
    funext i
    simp only [Function.comp_apply, Nat.succ_eq_add_one, List.getD_cons_succ, stride,
      List.take_succ_cons, List.prod_cons]
    ring
  rw [hfun, List.sum_map_mul_left]
  simp [stride]

lemma offsetH_eq_offsetSpec : ∀ (c d : List Nat), c.length = d.length →
    offsetH c d = offsetSpec c d
  | [], [], _ => by simp [offsetH, offsetSpec_nil]
  | [], _ :: _, h => by simp at h
  | _ :: _, [], h => by simp at h
  | x :: cs, y :: ds, h => by
    rw [offsetH, offsetSpec_cons, offsetH_eq_offsetSpec cs ds (by simpa using h)]

lemma offsetH_lt_prod : ∀ (c d : List Nat), c.length = d.length →
    (∀ i, i < c.length → c.getD i 0 < d.getD i 0) →
    offsetH c d < d.prod
  | [], [], _, _ => by simp [offsetH]
  | [], _ :: _, h, _ => by simp at h
  | _ :: _, [], h, _ => by simp at h
  | x :: cs, y :: ds, h, hin => by
    have hxy : x < y := by simpa using hin 0 (by simp)
    have htail : ∀ i, i < cs.length → cs.getD i 0 < ds.getD i 0 := by
      intro i hi
      simpa using hin (i + 1) (by simpa using Nat.succ_lt_succ hi)
    have h1 : offsetH cs ds < ds.prod := offsetH_lt_prod cs ds (by simpa using h) htail
    rw [offsetH, List.prod_cons]
    calc x + y * offsetH cs ds < y + y * offsetH cs ds := by omega
      _ = y * (offsetH cs ds + 1) := by ring
      _ ≤ y * ds.prod := Nat.mul_le_mul le_rfl (Nat.succ_le_of_lt h1)

lemma calcAux_ok : ∀ (c d : List Nat), c.length = d.length →
    (∀ i, i < c.length → c.getD i 0 < d.getD i 0) →
    ∀ mult acc, acc < U64 →
    calcIndexAux c d mult acc = .ok ((acc + mult * offsetH c d) % U64)
  | [], [], _, _, mult, acc, hacc => by
    simp [calcIndexAux, offsetH, Nat.mod_eq_of_lt hacc]
  | [], _ :: _, h, _, _, _, _ => by simp at h
  | _ :: _, [], h, _, _, _, _ => by simp at h
  | x :: cs, y :: ds, h, hin, mult, acc, hacc => by
    have hxy : x < y := by simpa using hin 0 (by simp)
    have htail : ∀ i, i < cs.length → cs.getD i 0 < ds.getD i 0 := by
      intro i hi
      simpa using hin (i + 1) (by simpa using Nat.succ_lt_succ hi)
    rw [calcIndexAux, if_neg (by omega),
      calcAux_ok cs ds (by simpa using h) htail (mult * y % U64) ((acc + x * mult) % U64)
        (Nat.mod_lt _ u64_pos)]
    congr 1
    rw [offsetH, mod_add_mul_mod]
    congr 1
    ring

lemma calcAux_error_iff : ∀ (c d : List Nat) (mult acc : Nat),
    (calcIndexAux c d mult acc = .error .indexOutOfBounds ↔
      ∃ i, i < min c.length d.length ∧ d.getD i 0 ≤ c.getD i 0)
  | [], d, mult, acc => by simp [calcIndexAux]
  | c :: cs, [], mult, acc => by simp [calcIndexAux]
  | x :: cs, y :: ds, mult, acc => by
    rw [calcIndexAux]
    by_cases hxy : y ≤ x
    · rw [if_pos hxy]
      constructor
      · intro _
        exact ⟨0, by simp, by simpa using hxy⟩
      · intro _
        rfl
    · rw [if_neg hxy, calcAux_error_iff cs ds _ _]
      constructor
      · rintro ⟨i, hi, hle⟩
        refine ⟨i + 1, ?_, by simpa using hle⟩
        simp only [List.length_cons, Nat.succ_min_succ]
        omega
      · rintro ⟨i, hi, hle⟩
        cases i with
        | zero => exact absurd (by simpa using hle) hxy
        | succ j =>
          refine ⟨j, ?_, by simpa using hle⟩
          simp only [List.length_cons, Nat.succ_min_succ] at hi
          omega

/-! Claim theorems. -/

/-- Claim C1: for every tensor with dimension vector `d` and every coordinate
sequence `c` with `c[i] < d[i]` for every `i` (and no overflow of the
size_t stride products, which allocation of the storage already forces),
`at(c)` returns the element of the flat storage at `offset(c)`, where
`offset(c)` is the sum over `i` of `c[i] * stride(i)` with `stride(0) = 1`
and `stride(i) = d[0] * ... * d[i-1]`. -/
theorem C1_at_matches_stride_formula {α : Type} [Inhabited α] (t : Tensor α) (c : List Nat)
    (hlen : c.length = t.dimensions.length)
    (hin : ∀ i, i < c.length → c.getD i 0 < t.dimensions.getD i 0)
    (hof : t.dimensions.prod ≤ U64) :
    tensorAt t c = .ok (t.m_Data.getD (offsetSpec c t.dimensions) default) := by
  simp only [Tensor.dimensions] at hlen hin hof ⊢
  have hH := calcAux_ok c t.m_DimensionsData hlen hin 1 0 u64_pos
  have hlt : offsetH c t.m_DimensionsData < U64 :=
    lt_of_lt_of_le (offsetH_lt_prod c t.m_DimensionsData hlen hin) hof
  unfold tensorAt calculateIndex
  rw [hH]
  have hidx : (0 + 1 * offsetH c t.m_DimensionsData) % U64
      = offsetSpec c t.m_DimensionsData := by
    rw [Nat.zero_add, Nat.one_mul, Nat.mod_eq_of_lt hlt, offsetH_eq_offsetSpec c _ hlen]
  rw [hidx]

/-- Witness for C1: the spec's concrete scenario, dimensions `[2, 3]` with
flat storage `0,1,2,3,4,5`: `at({1, 0}) = 1` and `at({0, 2}) = 4`. -/
theorem C1_at_matches_stride_formula_witness :
    tensorAt { (mkTensor [2, 3] : Tensor Nat) with m_Data := [0, 1, 2, 3, 4, 5] } [1, 0]
      = .ok 1 ∧
    tensorAt { (mkTensor [2, 3] : Tensor Nat) with m_Data := [0, 1, 2, 3, 4, 5] } [0, 2]
      = .ok 4 := by
  constructor
  · have h := C1_at_matches_stride_formula
      { (mkTensor [2, 3] : Tensor Nat) with m_Data := [0, 1, 2, 3, 4, 5] }
      [1, 0] (by decide) (by decide) (by decide)
    exact h.trans (by decide)
  · have h := C1_at_matches_stride_formula
      { (mkTensor [2, 3] : Tensor Nat) with m_Data := [0, 1, 2, 3, 4, 5] }
      [0, 2] (by decide) (by decide) (by decide)
    exact h.trans (by decide)

/-- Claim C2 is a code bug: copy construction copies `m_DimensionsData`
and `m_Data` but never recomputes `m_Size` (no `fsize()` call), so the
copy reports `size() = 0` while the product of its dimensions is 6. -/
theorem C2_copy_ctor_stale_size :
    Tensor.size (copyCtor (mkTensor [2, 3] : Tensor Nat)) = 0 ∧
    (copyCtor (mkTensor [2, 3] : Tensor Nat)).dimensions.prod = 6 := by
  decide

/-- Claim C3 is a code bug: `ConstIterator::operator*` performs no
`test_for_invalidation` call, so after `invalidate_iterators()` a stale
const iterator still dereferences with `.ok` instead of failing with
IteratorInvalidated; the mutable `Iterator::operator*` does fail. -/
theorem C3_const_star_skips_version_check :
    (invalidate_iterators (mkTensor [2, 3] : Tensor Nat)).m_Version
      ≠ (Tensor.cbegin 0 (mkTensor [2, 3] : Tensor Nat)).m_Version ∧
    cIterStar (invalidate_iterators (mkTensor [2, 3] : Tensor Nat))
      (Tensor.cbegin 0 (mkTensor [2, 3] : Tensor Nat)) = .ok 0 ∧
    iterStar (invalidate_iterators (mkTensor [2, 3] : Tensor Nat))
      (Tensor.begin 0 (mkTensor [2, 3] : Tensor Nat)) = .error .iteratorInvalidated := by
  decide

/-- Claim C4 is a code bug: the flat accessor checks `N > size()` instead
of `N >= size()`, so on a size-6 tensor the access at the out-of-range
flat index 6 (one past the 6-element backing buffer) succeeds instead of
failing with IndexOutOfBounds, while index 7 fails. -/
theorem C4_flat_access_off_by_one :
    Tensor.size (mkTensor [2, 3] : Tensor Nat) = 6 ∧
    (mkTensor [2, 3] : Tensor Nat).m_Data.length = 6 ∧
    getFlat (mkTensor [2, 3] : Tensor Nat) 6 = .ok 0 ∧
    getFlat (mkTensor [2, 3] : Tensor Nat) 7 = .error .indexOutOfBounds := by
  decide

/-- Claim C5 is a code bug: copy assignment replaces the dimensions
(here `[1, 1]` becomes `[2, 3]`) but neither recomputes the cached size
nor increments the version, so no invalidation happens although the
shape (and hence the true size) changed. -/
theorem C5_copy_assign_no_version_bump :
    (copyAssign (mkTensor [1, 1] : Tensor Nat) (mkTensor [2, 3])).dimensions = [2, 3] ∧
    (copyAssign (mkTensor [1, 1] : Tensor Nat) (mkTensor [2, 3])).m_Version
      = (mkTensor [1, 1] : Tensor Nat).m_Version ∧
    Tensor.size (copyAssign (mkTensor [1, 1] : Tensor Nat) (mkTensor [2, 3]))
      = Tensor.size (mkTensor [1, 1] : Tensor Nat) := by
  decide

/-- Claim C6: `at(c)` fails with IndexOutOfBounds exactly when some
coordinate satisfies `c[i] >= d[i]`, and a failing `at` never consults
the storage: its result is unchanged under any replacement of `m_Data`. -/
theorem C6_at_oob_iff {α : Type} [Inhabited α] (t : Tensor α) (c : List Nat)
    (hlen : c.length = t.dimensions.length) :
    (tensorAt t c = .error .indexOutOfBounds ↔
      ∃ i, i < c.length ∧ t.dimensions.getD i 0 ≤ c.getD i 0) ∧
    (∀ e, tensorAt t c = .error e →
      ∀ d2 : List α, tensorAt { t with m_Data := d2 } c = .error e) := by
  simp only [Tensor.dimensions] at hlen ⊢
  constructor
  · have h := calcAux_error_iff c t.m_DimensionsData 1 0
    rw [hlen, Nat.min_self] at h
    rw [← hlen] at h
    have hiff : tensorAt t c = .error TensorError.indexOutOfBounds ↔
        calcIndexAux c t.m_DimensionsData 1 0 = .error .indexOutOfBounds := by
      unfold tensorAt calculateIndex
      cases calcIndexAux c t.m_DimensionsData 1 0 <;> simp
    rw [hiff, h]
  · intro e he d2
    unfold tensorAt calculateIndex at he ⊢
    cases hcalc : calcIndexAux c t.m_DimensionsData 1 0 with
    | error e2 =>
      rw [hcalc] at he
      simpa using he
    | ok idx =>
      rw [hcalc] at he
      simp at he

/-- Witness for C6: on a `[2, 3]` tensor the coordinate `{2, 0}` (first
coordinate out of range) fails with IndexOutOfBounds. -/
theorem C6_at_oob_iff_witness :
    tensorAt (mkTensor [2, 3] : Tensor Nat) [2, 0] = .error .indexOutOfBounds :=
  ((C6_at_oob_iff (mkTensor [2, 3] : Tensor Nat) [2, 0] (by decide)).1).mpr
    ⟨0, by decide, by decide⟩

/-- Claim C7 as stated is false; this is the corrected core: for two
iterators of the same tensor carrying the same captured version, `<` is
the order of the flat indices, `==` holds exactly on equal indices, and
the difference operator returns the signed delta of the flat indices
whenever both fit below `2^63` (it is computed in size_t and read back
as the signed difference_type). -/
theorem C7_same_version_ordering (a b : Iterator)
    (ht : a.m_TensorId = b.m_TensorId) (hv : a.m_Version = b.m_Version) :
    (iterLt a b = true ↔ a.m_Index < b.m_Index) ∧
    (iterEqb a b = true ↔ a.m_Index = b.m_Index) ∧
    (a.m_Index < 2 ^ 63 → b.m_Index < 2 ^ 63 →
      iterSub a b = (a.m_Index : Int) - (b.m_Index : Int)) := by
  refine ⟨?_, ?_, ?_⟩
  · unfold iterLt
    rw [if_neg (by simp [ht])]
    by_cases h : a.m_Index = b.m_Index
    · rw [if_neg (by simp [h])]
      simp [h, hv]
    · rw [if_pos h]
      simp
  · unfold iterEqb
    simp
  · intro ha hb
    unfold iterSub wrapSub toInt64 U64
    split <;> omega

/-- Witness for C7: two same-version iterators of one tensor at indices
1 and 3 compare `1 < 3` and subtract to the signed delta 2. -/
theorem C7_same_version_ordering_witness :
    iterLt (Iterator.mk 0 1 5) (Iterator.mk 0 3 5) = true ∧
    iterSub (Iterator.mk 0 3 5) (Iterator.mk 0 1 5) = 2 := by
  constructor
  · exact ((C7_same_version_ordering (Iterator.mk 0 1 5) (Iterator.mk 0 3 5) rfl rfl).1).mpr
      (by decide)
  · have h := (C7_same_version_ordering (Iterator.mk 0 3 5) (Iterator.mk 0 1 5) rfl rfl).2.2
      (by decide) (by decide)
    rw [h]
    decide

/-- Counterexample to C7 as stated: `operator<=>` is defaulted, so it also
compares the captured version; two iterators of the same tensor with
equal flat indices but different versions satisfy `it1 < it2` although
the first index is not smaller. -/
theorem C7_lt_version_counterexample :
    iterLt (Iterator.mk 0 0 0) (Iterator.mk 0 0 1) = true ∧
    (Iterator.mk 0 0 0).m_Index = (Iterator.mk 0 0 1).m_Index := by
  decide

/-- Claim C8: a tensor freshly constructed from the dimension array `d`
(with the product representable in size_t) has `size() = product(d)`,
backing storage of exactly that length, and keeps `d` as dimensions. -/
theorem C8_fresh_construction (ds : List Nat) (hof : ds.prod < U64) :
    Tensor.size (mkTensor ds : Tensor Nat) = ds.prod ∧
    (mkTensor ds : Tensor Nat).m_Data.length = ds.prod ∧
    (mkTensor ds : Tensor Nat).dimensions = ds := by
  have hp := prodDims_eq ds hof
  simp only [mkTensor, fsize, invalidate_iterators, Tensor.size, Tensor.dimensions]
  split <;> simp [hp]

/-- Witness for C8: `[2, 3]` gives size 6 and a 6-element backing buffer. -/
theorem C8_fresh_construction_witness :
    Tensor.size (mkTensor [2, 3] : Tensor Nat) = 6 ∧
    (mkTensor [2, 3] : Tensor Nat).m_Data.length = 6 := by
  have h := C8_fresh_construction [2, 3] (by decide)
  exact ⟨h.1.trans (by decide), h.2.1.trans (by decide)⟩

/-- Claim C9: copy construction allocates a fresh backing buffer (the
copied tensor's buffer id differs from the source's), the copied contents
agree, and any successful element write through the copy's flat accessor
leaves the source's buffer untouched. -/
theorem C9_copy_is_deep (h : List (List Nat)) (a : HTensor)
    (ha : a.bufId < h.length) :
    (heapCopyCtor h a).2.bufId ≠ a.bufId ∧
    (heapCopyCtor h a).1.getD a.bufId [] = h.getD a.bufId [] ∧
    ∀ n v h2, heapSetFlat (heapCopyCtor h a).1 (heapCopyCtor h a).2 n v = .ok h2 →
      h2.getD a.bufId [] = h.getD a.bufId [] := by
  have hget : (heapCopyCtor h a).1.getD a.bufId [] = h.getD a.bufId [] := by
    simp only [heapCopyCtor]
    exact List.getD_append h _ [] a.bufId ha
  refine ⟨by simp [heapCopyCtor]; omega, hget, ?_⟩
  intro n v h2 hset
  unfold heapSetFlat at hset
  split at hset
  · exact absurd hset (by simp)
  · have h2eq : h2 = (heapCopyCtor h a).1.set (heapCopyCtor h a).2.bufId
        (((heapCopyCtor h a).1.getD (heapCopyCtor h a).2.bufId []).set n v) := by
      simpa using hset.symm
    rw [h2eq]
    have hne : (heapCopyCtor h a).2.bufId ≠ a.bufId := by
      simp only [heapCopyCtor]
      omega
    rw [List.getD_eq_getElem?_getD, List.getElem?_set_ne hne, ← List.getD_eq_getElem?_getD]
    exact hget

/-- Witness for C9: a one-buffer heap holding `[0, 1, 2]`; the copy gets
buffer 1, and writing 9 at slot 0 of the copy leaves buffer 0 unchanged. -/
theorem C9_copy_is_deep_witness :
    (heapCopyCtor [[0, 1, 2]] (HTensor.mk [3] 0 3 0)).2.bufId ≠ 0 ∧
    ∀ h2, heapSetFlat (heapCopyCtor [[0, 1, 2]] (HTensor.mk [3] 0 3 0)).1
        (heapCopyCtor [[0, 1, 2]] (HTensor.mk [3] 0 3 0)).2 0 9 = .ok h2 →
      h2.getD 0 [] = [0, 1, 2] := by
  have h := C9_copy_is_deep [[0, 1, 2]] (HTensor.mk [3] 0 3 0) (by decide)
  exact ⟨h.1, fun h2 hset => (h.2.2 0 9 h2 hset).trans (by decide)⟩

/-- Claim C10: both `Iterator::operator==` and `ConstIterator::operator==`
consult only the flat index: they return true exactly when the indices
agree, whatever the tensor identities and captured versions are. -/
theorem C10_eq_consults_only_index :
    (∀ a b : Iterator, iterEqb a b = true ↔ a.m_Index = b.m_Index) ∧
    (∀ p q : CIterator, cIterEqb p q = true ↔ p.m_Index = q.m_Index) := by
  constructor
  · intro a b
    unfold iterEqb
    simp
  · intro p q
    unfold cIterEqb
    simp

end TenSore
